import Mathlib

/-!
Verification of the lottery server of this repository: a shallow embedding in
Lean 4 of `server/common/protocol.py` (wire codec) and `server/common/server.py`
(lottery coordination), with theorems settling the specification's claims.

Modelling conventions:
* Python strings are modelled as `List Char`; the UTF-8 byte layer is modelled
  in its ASCII fragment, where one character corresponds to one byte.
* Byte strings are `List Nat` (each entry a byte value).
* Fallible Python code (functions that may raise, with callers catching the
  exception) is modelled with `Option`: `none` is the caught-exception /
  failure outcome.
* Socket reads are modelled by the list of bytes the peer sends before
  closing; socket writes are modelled by returning the bytes written.
* Python `str.split(sep)` is only invoked on the separators `"|"`, `"||"` and
  `";;"`, so it is embedded by two structurally recursive scanners, one for a
  one-character separator and one for a repeated-character separator, both
  performing the same left-to-right non-overlapping scan `str.split` does.
-/

set_option maxRecDepth 4000

namespace Lottery

/-- Python strings, modelled as lists of characters. -/
abbrev Str := List Char

/-- Wire bytes, modelled as natural numbers (each below 256 in real traffic). -/
abbrev ByteStr := List Nat

/-! ## Message type codes (protocol.py lines 5-9) -/

def BATCH : Nat := 1

def RESPONSE : Nat := 2

def FINISHED_NOTIFICATION : Nat := 3

def WINNERS_QUERY : Nat := 4

def WINNERS_RESPONSE : Nat := 5

/-! ## Message data classes (protocol.py lines 12-48) -/

/-- A single bet (protocol.py `Bet`): six string fields. -/
structure Bet where
  agency : Str
  first_name : Str
  last_name : Str
  document : Str
  birthdate : Str
  number : Str
deriving DecidableEq, Repr

/-- Acknowledgement response (protocol.py `Response`). -/
structure Response where
  success : Bool
  message : Str
deriving DecidableEq, Repr

/-- A batch of bets from one agency (protocol.py `Batch`). -/
structure Batch where
  agency : Str
  bets : List Bet
deriving DecidableEq, Repr

/-- Notification that an agency finished submitting (protocol.py). -/
structure FinishedNotification where
  agency : Str
deriving DecidableEq, Repr

/-- Query for an agency's winners (protocol.py `WinnersQuery`). -/
structure WinnersQuery where
  agency : Str
deriving DecidableEq, Repr

/-- List of winning document numbers (protocol.py `WinnersResponse`). -/
structure WinnersResponse where
  winners : List Str
deriving DecidableEq, Repr

/-- The payload of a `Message`: in Python `Message.data` holds any of the five
payload classes; here it is a sum over them. -/
inductive MsgData where
  | batch : Batch → MsgData
  | response : Response → MsgData
  | finished : FinishedNotification → MsgData
  | query : WinnersQuery → MsgData
  | winners : WinnersResponse → MsgData
deriving DecidableEq, Repr

/-- Message envelope (protocol.py `Message`): an integer type code plus data. -/
structure Message where
  type : Nat
  data : MsgData
deriving DecidableEq, Repr

/-! ## Python string primitives -/

/-- Python `s.split(c)` for the one-character separator `c`: cut at every
occurrence of `c`. -/
def pySplit1 (c : Char) : Str → List Str
  | [] => [[]]
  | a :: rest =>
    if a = c then [] :: pySplit1 c rest
    else
      match pySplit1 c rest with
      | [] => [[a]]
      | part :: parts => (a :: part) :: parts

/-- Python `s.split(⟨c,c⟩)` for the doubled-character separators `"||"` and
`";;"`: scan left to right, cut at each non-overlapping occurrence of the two
adjacent characters. -/
def pySplit2 (c : Char) : Str → List Str
  | [] => [[]]
  | [a] => [[a]]
  | a :: b :: rest =>
    if a = c ∧ b = c then [] :: pySplit2 c rest
    else
      match pySplit2 c (b :: rest) with
      | [] => [[a]]
      | part :: parts => (a :: part) :: parts

/-- Python `s.split(c, 1)`: split at the first occurrence of the character `c`
only; `none` models the absence of the separator. -/
def pySplitOnce1 (c : Char) : Str → Option (Str × Str)
  | [] => none
  | a :: rest =>
    if a = c then some ([], rest)
    else (pySplitOnce1 c rest).map (fun p => (a :: p.1, p.2))

/-- Python `sep.join(parts)`. -/
def pyJoin (sep : Str) : List Str → Str
  | [] => []
  | [p] => p
  | p :: parts => p ++ sep ++ pyJoin sep parts

/-! ## String-level codec (protocol.py lines 51-96)

The deserializers of `protocol.py` raise `ValueError` on a malformed payload;
the exception is caught by `receive_message`'s blanket handler, so they are
modelled as `Option`-valued. -/

/-- protocol.py `deserialize_bet`: split on a single pipe, demand 6 fields. -/
def deserialize_bet (data : Str) : Option Bet :=
  match pySplit1 '|' data with
  | [a, f, l, d, b, n] => some ⟨a, f, l, d, b, n⟩
  | _ => none

/-- The bets section of a batch payload: an empty section means no bets,
otherwise split on the double semicolon and decode each bet. -/
def deserialize_bets_section (bets_data : Str) : Option (List Bet) :=
  if bets_data = [] then some []
  else (pySplit2 ';' bets_data).mapM deserialize_bet

/-- protocol.py `deserialize_batch`, string part: split on the double pipe,
demand exactly 2 parts (agency and bets section). -/
def deserialize_batch_str (data_str : Str) : Option Batch :=
  match pySplit2 '|' data_str with
  | [agency, bets_data] => (deserialize_bets_section bets_data).map (⟨agency, ·⟩)
  | _ => none

/-- protocol.py `serialize_response`: payload is `"true"|msg` / `"false"|msg`
(the UTF-8 encoding to bytes is composed at the send site). -/
def serialize_response (r : Response) : Str :=
  (if r.success then "true".data else "false".data) ++ ['|'] ++ r.message

/-- protocol.py `serialize_winners_response`: pipe-joined document numbers. -/
def serialize_winners_response (r : WinnersResponse) : Str :=
  pyJoin ['|'] r.winners

/-! ## Byte layer (ASCII fragment of UTF-8) -/

/-- Encoding `str.encode('utf-8')` restricted to the ASCII fragment: each
character below code point 128 becomes one byte; other strings are outside the
modelled fragment. -/
def utf8Encode (s : Str) : Option ByteStr :=
  if s.all (fun c => c.toNat < 128) then some (s.map Char.toNat) else none

/-- Decoding `bytes.decode('utf-8')` restricted to the ASCII fragment; a byte
outside it models a decode exception (caught by the receive loop). -/
def utf8Decode (bs : ByteStr) : Option Str :=
  if bs.all (fun b => b < 128) then some (bs.map Char.ofNat) else none

/-- protocol.py `deserialize_batch`: UTF-8 decode, then the string part. -/
def deserialize_batch (data : ByteStr) : Option Batch :=
  (utf8Decode data).bind deserialize_batch_str

/-- protocol.py `deserialize_winners_query`: payload is the agency string. -/
def deserialize_winners_query (data : ByteStr) : Option WinnersQuery :=
  (utf8Decode data).map WinnersQuery.mk

/-- protocol.py `deserialize_finished_notification`. -/
def deserialize_finished_notification (data : ByteStr) : Option FinishedNotification :=
  (utf8Decode data).map FinishedNotification.mk

/-! ## Frames (protocol.py lines 98-177) -/

/-- Little-endian `int.to_bytes(k, 'little')`: `k` bytes, least significant
first. -/
def toLEBytes : Nat → Nat → ByteStr
  | 0, _ => []
  | k + 1, n => (n % 256) :: toLEBytes k (n / 256)

/-- Little-endian `int.from_bytes(bs, 'little')`. -/
def fromLEBytes : ByteStr → Nat
  | [] => 0
  | b :: rest => b + 256 * fromLEBytes rest

/-- One receive loop of `receive_message`: accumulate exactly `n` bytes from
the inbound stream, `none` when the peer closes (the stream ends) first.
Returns the bytes read and the rest of the stream. -/
def recvExact : Nat → ByteStr → Option (ByteStr × ByteStr)
  | 0, s => some ([], s)
  | _ + 1, [] => none
  | n + 1, b :: rest => (recvExact n rest).map (fun p => (b :: p.1, p.2))

/-- The payload-construction half of `send_message` (protocol.py lines
104-115): serialize a `Response` under type code `RESPONSE` and a
`WinnersResponse` under `WINNERS_RESPONSE`; any other type code, or a payload
object whose class does not match the code, is rejected with `none` before
anything is written. -/
def encode_payload (m : Message) : Option ByteStr :=
  if m.type = RESPONSE then
    match m.data with
    | .response r => utf8Encode (serialize_response r)
    | _ => none
  else if m.type = WINNERS_RESPONSE then
    match m.data with
    | .winners w => utf8Encode (serialize_winners_response w)
    | _ => none
  else none

/-- protocol.py `send_message`: build the payload via `encode_payload` (a
failure there is the `False` return with nothing written); then write the
frame `[1 type byte][4 length bytes little-endian][payload]`. The socket
write loop is modelled as succeeding; `some frame` is the byte string
written, `none` the `False` outcome with no bytes written. -/
def send_message (m : Message) : Option ByteStr :=
  match encode_payload m with
  | none => none
  | some payload =>
    if payload.length < 2 ^ 32 then
      some (m.type :: toLEBytes 4 payload.length ++ payload)
    else none

/-- protocol.py `receive_message` over the inbound byte stream: read 1 type
byte, 4 length bytes, then `length` payload bytes, returning `none` on a short
read; then dispatch on the type code, `none` for an unrecognized code or a
payload that fails to decode. -/
def receive_message (s : ByteStr) : Option Message :=
  match recvExact 1 s with
  | none => none
  | some (type_data, s1) =>
    let message_type := fromLEBytes type_data
    match recvExact 4 s1 with
    | none => none
    | some (length_data, s2) =>
      let data_length := fromLEBytes length_data
      match recvExact data_length s2 with
      | none => none
      | some (payload, _) =>
        if message_type = BATCH then
          (deserialize_batch payload).map (fun d => ⟨message_type, .batch d⟩)
        else if message_type = WINNERS_QUERY then
          (deserialize_winners_query payload).map (fun d => ⟨message_type, .query d⟩)
        else if message_type = FINISHED_NOTIFICATION then
          (deserialize_finished_notification payload).map (fun d => ⟨message_type, .finished d⟩)
        else none

/-! ## Client-side codec, modelled from the spec

The repository's `src/` holds only the server; the agency client that encodes
Batch / FinishedNotification / WinnersQuery payloads and decodes Response /
WinnersResponse payloads is not among the source files. These definitions are
modelled from the spec's payload formats (spec sections 4.1 and 6). -/

/-- Modelled from the spec: the missing client-side Bet encoder; a bet is its
six fields pipe-joined, `agency|first|last|document|birthdate|number`. -/
def serialize_bet (b : Bet) : Str :=
  pyJoin ['|'] [b.agency, b.first_name, b.last_name, b.document, b.birthdate, b.number]

/-- Modelled from the spec: the missing client-side Batch encoder; payload is
the agency, a double pipe, then the bets double-semicolon-joined. -/
def serialize_batch (bt : Batch) : Str :=
  bt.agency ++ ['|', '|'] ++ pyJoin [';', ';'] (bt.bets.map serialize_bet)

/-- Modelled from the spec: the missing client-side FinishedNotification
encoder; payload is the agency identifier string and nothing else. -/
def serialize_finished_notification (fn : FinishedNotification) : Str :=
  fn.agency

/-- Modelled from the spec: the missing client-side WinnersQuery encoder;
payload is the agency identifier string and nothing else. -/
def serialize_winners_query (q : WinnersQuery) : Str :=
  q.agency

/-- Modelled from the spec: the missing client-side Response decoder; the
payload format is `"true"|message` or `"false"|message`, so the flag is read
up to the first pipe and the message is everything after it. -/
def deserialize_response (data : Str) : Option Response :=
  match pySplitOnce1 '|' data with
  | none => none
  | some (flag, msg) =>
    if flag = "true".data then some ⟨true, msg⟩
    else if flag = "false".data then some ⟨false, msg⟩
    else none

/-- Modelled from the spec: the missing client-side WinnersResponse decoder;
the payload is the pipe-joined document numbers, the empty payload denoting
zero winners. -/
def deserialize_winners_response (data : Str) : Option WinnersResponse :=
  if data = [] then some ⟨[]⟩ else some ⟨pySplit1 '|' data⟩

/-! ## The bet store and winning predicate (external collaborators)

`server.py` imports `has_won`, `load_bets`, `store_bets` from `common.utils`,
which is not among the source files; the spec lists them as external
collaborators. A persisted bet record is modelled from the spec's data model
(integer agency identifier, document number); `load_bets` and `has_won` enter
the theorems as uninterpreted parameters. -/

/-- Modelled from the spec: a bet as re-materialized by the external Bet Store
Gateway's `load_bets`, with the integer agency identifier and the document
number that the winner computation reads. -/
structure StoreBet where
  agency : Int
  first_name : Str
  last_name : Str
  document : Str
  birthdate : Str
  number : Int
deriving DecidableEq, Repr

/-- Python `int(s)` on the digit fragment: one or more decimal digits; `none`
models the `ValueError` that non-numeric input raises. -/
def digitsToNat : Str → Option Nat
  | [] => none
  | cs =>
    if cs.all (fun c => c.isDigit) then
      some (cs.foldl (fun acc c => acc * 10 + (c.toNat - '0'.toNat)) 0)
    else none

/-- Python `int(s)` (sign handling over `digitsToNat`). -/
def parsePyInt : Str → Option Int
  | '-' :: rest => (digitsToNat rest).map (fun n => -(n : Int))
  | '+' :: rest => (digitsToNat rest).map (fun n => (n : Int))
  | s => (digitsToNat s).map (fun n => (n : Int))

/-! ## Server coordination state (server.py) -/

/-- The fields of `Server.__init__` that the lottery coordination reads and
writes. The socket objects, logger, lock, threads and barriers are not data;
a pending winner query entry `(client_sock, query_data, addr)` is modelled by
its query, which identifies the client connection it arrived on.
`lottery_runs` is a ghost instrumentation counter, not a field of the source:
it counts executions of the lottery body, observing the exactly-once property
the spec states (spec section 8). -/
structure ServerState where
  finished_agencies : List Str
  lottery_completed : Bool
  total_agencies : Nat
  pending_winner_queries : List WinnersQuery
  all_bets : List StoreBet
  winner_queries_received : Nat
  winners_sent : Bool
  lottery_runs : Nat
deriving DecidableEq, Repr

/-- The state `Server.__init__` builds: empty finished set, both latch flags
false, no pending queries, no materialized winners. -/
def initial_state (total : Nat) : ServerState :=
  { finished_agencies := []
    lottery_completed := false
    total_agencies := total
    pending_winner_queries := []
    all_bets := []
    winner_queries_received := 0
    winners_sent := false
    lottery_runs := 0 }

/-- server.py `Server.__perform_lottery`: full reload of the persisted bets
through the external `load_bets`, keep those satisfying the external
`has_won`, replacing `_all_bets`. The ghost counter records the execution. -/
def perform_lottery (load_bets : List StoreBet) (has_won : StoreBet → Bool)
    (s : ServerState) : ServerState :=
  { s with all_bets := load_bets.filter has_won, lottery_runs := s.lottery_runs + 1 }

/-- server.py lines 116-120: the latch-guarded critical section each handler
runs under the shared lock after the finished barrier: if the flag is still
false, set it and perform the lottery; otherwise do nothing. The lock
serializes the N handlers, so their interleaving is some sequential
composition of this step. -/
def lottery_latch_step (load_bets : List StoreBet) (has_won : StoreBet → Bool)
    (s : ServerState) : ServerState :=
  if s.lottery_completed then s
  else perform_lottery load_bets has_won { s with lottery_completed := true }

/-- server.py `Server.__get_winners_for_agency`: empty list when no bets are
loaded; otherwise parse the agency string as an integer (a parse failure is
caught and yields the winners accumulated so far, the empty list) and collect
the documents of the retained bets with that agency. -/
def get_winners_for_agency (s : ServerState) (agency : Str) : List Str :=
  if s.all_bets.isEmpty then []
  else
    match parsePyInt agency with
    | none => []
    | some agency_int =>
      (s.all_bets.filter (fun bet => bet.agency = agency_int)).map (fun bet => bet.document)

/-- Which of the two log lines `__handle_finished_notification` emits. -/
inductive FinishedLog where
  | newly_finished
  | already_finished
deriving DecidableEq, Repr

/-- server.py `Server.__handle_finished_notification`: add-if-absent on the
finished set under the lock, logging new versus duplicate, then in both cases
a success Response acknowledging the agency. Returns the new state, the log
classification and the response message sent. -/
def handle_finished_notification (s : ServerState) (fn : FinishedNotification) :
    ServerState × FinishedLog × Message :=
  let step :=
    if s.finished_agencies.contains fn.agency then (s, FinishedLog.already_finished)
    else ({ s with finished_agencies := s.finished_agencies ++ [fn.agency] },
          FinishedLog.newly_finished)
  (step.1, step.2,
   ⟨RESPONSE, .response ⟨true,
     "Agency ".data ++ fn.agency ++ " finished notification received".data⟩⟩)

/-- server.py `Server.__handle_winners_query`: under the lock, count the
query and read the lottery flag; if the lottery has not completed, enqueue the
query as pending and send nothing; otherwise compute the agency's winners and
send a WinnersResponse immediately. Returns the new state and the messages
sent to this client. -/
def handle_winners_query (s : ServerState) (q : WinnersQuery) :
    ServerState × List Message :=
  let s1 := { s with winner_queries_received := s.winner_queries_received + 1 }
  if s1.lottery_completed then
    (s1, [⟨WINNERS_RESPONSE, .winners ⟨get_winners_for_agency s1 q.agency⟩⟩])
  else
    ({ s1 with pending_winner_queries := s1.pending_winner_queries ++ [q] }, [])

/-- server.py `Server.__send_winners_to_all_clients`: nothing when no queries
are pending; otherwise send each pending query's client its agency's winners
and clear the pending list. A send is the pair of the pending query (standing
for its client connection) and the message. -/
def send_winners_to_all_clients (s : ServerState) :
    ServerState × List (WinnersQuery × Message) :=
  if s.pending_winner_queries.isEmpty then (s, [])
  else
    ({ s with pending_winner_queries := [] },
     s.pending_winner_queries.map (fun q =>
       (q, ⟨WINNERS_RESPONSE, .winners ⟨get_winners_for_agency s q.agency⟩⟩)))

/-- Outcome of one turn of the per-client receive loop. -/
inductive LoopOutcome where
  | abort_disconnected
  | handle_message (m : Message)
deriving DecidableEq, Repr

/-- server.py lines 99-108: the reaction of `__handle_client_connection`'s
receive loop to one `receive_message` result. A `none` result - a closed
connection and a failed payload decode alike - makes the handler log an early
disconnect and stop, sending nothing; a message is passed on to the
business-logic dispatch. The second component is the messages sent in this
reaction before any dispatch (always none). -/
def client_loop_reaction : Option Message → LoopOutcome × List Message
  | none => (LoopOutcome.abort_disconnected, [])
  | some m => (LoopOutcome.handle_message m, [])

/-! ## Helper lemmas: the receive loops -/

theorem recvExact_eq_none_iff (n : Nat) (s : ByteStr) :
    recvExact n s = none ↔ s.length < n := by
  induction n generalizing s with
  | zero => simp [recvExact]
  | succ n ih =>
    cases s with
    | nil => simp [recvExact]
    | cons b rest =>
      simp [recvExact, ih rest, Option.map_eq_none', Nat.succ_lt_succ_iff]

theorem recvExact_eq_some (n : Nat) (s : ByteStr) (h : n ≤ s.length) :
    recvExact n s = some (s.take n, s.drop n) := by
  induction n generalizing s with
  | zero => simp [recvExact]
  | succ n ih =>
    cases s with
    | nil => simp at h
    | cons b rest =>
      simp only [List.length_cons, Nat.succ_le_succ_iff] at h
      simp [recvExact, ih rest h]

/-! ## Helper lemmas: little-endian length bytes -/

theorem length_toLEBytes (k n : Nat) : (toLEBytes k n).length = k := by
  induction k generalizing n with
  | zero => simp [toLEBytes]
  | succ k ih => simp [toLEBytes, ih]

theorem fromLEBytes_toLEBytes (k n : Nat) :
    fromLEBytes (toLEBytes k n) = n % 256 ^ k := by
  induction k generalizing n with
  | zero => simp [toLEBytes, fromLEBytes, Nat.mod_one]
  | succ k ih =>
    have h : 256 ^ (k + 1) = 256 * 256 ^ k := by ring
    rw [toLEBytes, fromLEBytes, ih, h, Nat.mod_mul]

theorem fromLEBytes_toLEBytes_4 (n : Nat) (h : n < 2 ^ 32) :
    fromLEBytes (toLEBytes 4 n) = n := by
  rw [fromLEBytes_toLEBytes]
  exact Nat.mod_eq_of_lt (by norm_num at h ⊢; omega)

/-! ## Helper lemmas: the ASCII byte layer -/

/-- Strings inside the modelled ASCII fragment of UTF-8. -/
def asciiStr (s : Str) : Prop := ∀ c ∈ s, c.toNat < 128

instance (s : Str) : Decidable (asciiStr s) := by unfold asciiStr; infer_instance

theorem utf8Encode_eq_some {s : Str} (h : asciiStr s) :
    utf8Encode s = some (s.map Char.toNat) := by
  have hb : s.all (fun c => c.toNat < 128) = true := by
    simp only [List.all_eq_true, decide_eq_true_eq]
    exact h
  simp [utf8Encode, hb]

theorem utf8Decode_map_toNat {s : Str} (h : asciiStr s) :
    utf8Decode (s.map Char.toNat) = some s := by
  have hb : (s.map Char.toNat).all (fun b => b < 128) = true := by
    simp only [List.all_eq_true, decide_eq_true_eq, List.mem_map]
    rintro b ⟨c, hc, rfl⟩
    exact h c hc
  have hmap : List.map Char.ofNat (List.map Char.toNat s) = s := by
    rw [List.map_map]
    have hco : (Char.ofNat ∘ Char.toNat) = id := funext Char.ofNat_toNat
    rw [hco, List.map_id]
  simp [utf8Decode, hb, hmap]

theorem utf8_roundtrip {s : Str} (h : asciiStr s) :
    (utf8Encode s).bind utf8Decode = some s := by
  rw [utf8Encode_eq_some h, Option.some_bind, utf8Decode_map_toNat h]

/-! ## Helper lemmas: Python split and join -/

theorem pySplit1_ne_nil (c : Char) (s : Str) : pySplit1 c s ≠ [] := by
  cases s with
  | nil => simp [pySplit1]
  | cons a rest =>
    rw [pySplit1]
    split
    · simp
    · split <;> simp

theorem pySplit1_cons_sep (c : Char) (rest : Str) :
    pySplit1 c (c :: rest) = [] :: pySplit1 c rest := by
  rw [pySplit1, if_pos rfl]

theorem pySplit1_cons_ne (c a : Char) (rest : Str) (ha : a ≠ c) :
    pySplit1 c (a :: rest) =
      match pySplit1 c rest with
      | [] => [[a]]
      | part :: parts => (a :: part) :: parts := by
  rw [pySplit1, if_neg ha]

theorem pySplit1_append (c : Char) (p rest : Str) (hp : ∀ x ∈ p, x ≠ c) :
    pySplit1 c (p ++ c :: rest) = p :: pySplit1 c rest := by
  induction p with
  | nil => simpa using pySplit1_cons_sep c rest
  | cons a p ih =>
    have ha : a ≠ c := hp a (by simp)
    have ih' := ih (fun x hx => hp x (by simp [hx]))
    rw [List.cons_append, pySplit1_cons_ne c a _ ha, ih']

theorem pySplit1_no_sep (c : Char) (p : Str) (hp : ∀ x ∈ p, x ≠ c) :
    pySplit1 c p = [p] := by
  induction p with
  | nil => simp [pySplit1]
  | cons a p ih =>
    have ha : a ≠ c := hp a (by simp)
    have ih' := ih (fun x hx => hp x (by simp [hx]))
    rw [pySplit1_cons_ne c a _ ha, ih']

theorem pyJoin_cons_cons (sep : Str) (p q : Str) (parts : List Str) :
    pyJoin sep (p :: q :: parts) = p ++ sep ++ pyJoin sep (q :: parts) := by
  rfl

theorem pySplit1_pyJoin (c : Char) (parts : List Str) (hne : parts ≠ [])
    (h : ∀ p ∈ parts, ∀ x ∈ p, x ≠ c) :
    pySplit1 c (pyJoin [c] parts) = parts := by
  induction parts with
  | nil => exact absurd rfl hne
  | cons p parts ih =>
    cases parts with
    | nil => exact pySplit1_no_sep c p (h p (by simp))
    | cons q parts' =>
      rw [pyJoin_cons_cons, List.append_assoc, List.singleton_append,
        pySplit1_append c p _ (h p (by simp)),
        ih (by simp) (fun r hr x hx => h r (by simp [hr]) x hx)]

theorem pySplitOnce1_append (c : Char) (p rest : Str) (hp : ∀ x ∈ p, x ≠ c) :
    pySplitOnce1 c (p ++ c :: rest) = some (p, rest) := by
  induction p with
  | nil =>
    rw [List.nil_append, pySplitOnce1, if_pos rfl]
  | cons a p ih =>
    have ha : a ≠ c := hp a (by simp)
    have ih' := ih (fun x hx => hp x (by simp [hx]))
    rw [List.cons_append, pySplitOnce1, if_neg ha, ih']
    rfl

/-- No two adjacent occurrences of `c` in the string. -/
def noDouble (c : Char) : Str → Bool
  | [] => true
  | [_] => true
  | a :: b :: rest => (!(a == c) || !(b == c)) && noDouble c (b :: rest)

theorem noDouble_of_no_char (c : Char) (s : Str) (h : ∀ x ∈ s, x ≠ c) :
    noDouble c s = true := by
  induction s with
  | nil => simp [noDouble]
  | cons a s ih =>
    cases s with
    | nil => simp [noDouble]
    | cons b rest =>
      have ha : a ≠ c := h a (by simp)
      rw [noDouble]
      simp only [Bool.and_eq_true, Bool.or_eq_true, Bool.not_eq_true', beq_eq_false_iff_ne]
      exact ⟨Or.inl ha, ih (fun x hx => h x (by simp at hx ⊢; tauto))⟩

theorem noDouble_cons_of_ne (c d : Char) (s : Str) (hd : d ≠ c)
    (hs : noDouble c s = true) : noDouble c (d :: s) = true := by
  cases s with
  | nil => simp [noDouble]
  | cons b rest =>
    rw [noDouble]
    simp only [Bool.and_eq_true, Bool.or_eq_true, Bool.not_eq_true', beq_eq_false_iff_ne]
    exact ⟨Or.inl hd, hs⟩

theorem noDouble_append_cons (c d : Char) (xs ys : Str) (hd : d ≠ c)
    (hx : noDouble c xs = true) (hy : noDouble c (d :: ys) = true) :
    noDouble c (xs ++ d :: ys) = true := by
  induction xs with
  | nil => exact hy
  | cons a xs ih =>
    cases xs with
    | nil =>
      rw [List.cons_append, List.nil_append, noDouble]
      simp only [Bool.and_eq_true, Bool.or_eq_true, Bool.not_eq_true', beq_eq_false_iff_ne]
      exact ⟨Or.inr hd, hy⟩
    | cons b xs' =>
      simp only [noDouble, Bool.and_eq_true] at hx
      have ih' := ih hx.2
      rw [List.cons_append]
      simp only [noDouble, Bool.and_eq_true]
      refine ⟨?_, ?_⟩
      · simpa using hx.1
      · simpa using ih'

theorem noDouble_sep_append (c : Char) (xs ys : Str) (hx : ∀ x ∈ xs, x ≠ c)
    (hy : noDouble c ys = true) (hhead : ys.head? ≠ some c) :
    noDouble c (xs ++ c :: ys) = true := by
  induction xs with
  | nil =>
    cases ys with
    | nil => simp [noDouble]
    | cons b rest =>
      rw [List.nil_append, noDouble]
      simp only [Bool.and_eq_true, Bool.or_eq_true, Bool.not_eq_true', beq_eq_false_iff_ne]
      refine ⟨Or.inr ?_, hy⟩
      simp only [List.head?_cons, ne_eq, Option.some_inj] at hhead
      exact hhead
  | cons a xs ih =>
    have ha : a ≠ c := hx a (by simp)
    have ih' := ih (fun x hxm => hx x (by simp [hxm]))
    cases xs with
    | nil =>
      rw [List.cons_append, List.nil_append, noDouble]
      simp only [Bool.and_eq_true, Bool.or_eq_true, Bool.not_eq_true', beq_eq_false_iff_ne]
      exact ⟨Or.inl ha, by simpa using ih'⟩
    | cons b xs' =>
      rw [List.cons_append]
      simp only [noDouble, Bool.and_eq_true, Bool.or_eq_true, Bool.not_eq_true',
        beq_eq_false_iff_ne]
      exact ⟨Or.inl ha, by simpa [noDouble] using ih'⟩

theorem pySplit2_cons_sep (c : Char) (rest : Str) :
    pySplit2 c (c :: c :: rest) = [] :: pySplit2 c rest := by
  rw [pySplit2, if_pos ⟨rfl, rfl⟩]

theorem pySplit2_cons_cons_ne (c a b : Char) (rest : Str) (h : ¬(a = c ∧ b = c)) :
    pySplit2 c (a :: b :: rest) =
      match pySplit2 c (b :: rest) with
      | [] => [[a]]
      | part :: parts => (a :: part) :: parts := by
  rw [pySplit2, if_neg h]

theorem pySplit2_append (c : Char) (p rest : Str) (hp : ∀ x ∈ p, x ≠ c) :
    pySplit2 c (p ++ c :: c :: rest) = p :: pySplit2 c rest := by
  induction p with
  | nil => simpa using pySplit2_cons_sep c rest
  | cons a p ih =>
    have ha : a ≠ c := hp a (by simp)
    have ih' := ih (fun x hx => hp x (by simp [hx]))
    cases p with
    | nil =>
      rw [List.cons_append, List.nil_append,
        pySplit2_cons_cons_ne c a c _ (fun h => ha h.1), pySplit2_cons_sep c rest]
    | cons b p' =>
      simp only [List.cons_append] at ih' ⊢
      rw [pySplit2_cons_cons_ne c a b _ (fun h => ha h.1), ih']

theorem pySplit2_noDouble (c : Char) (s : Str) (h : noDouble c s = true) :
    pySplit2 c s = [s] := by
  induction s with
  | nil => simp [pySplit2]
  | cons a s ih =>
    cases s with
    | nil => simp [pySplit2]
    | cons b rest =>
      simp only [noDouble, Bool.and_eq_true, Bool.or_eq_true, Bool.not_eq_true',
        beq_eq_false_iff_ne] at h
      have hab : ¬(a = c ∧ b = c) := by
        rcases h.1 with hc | hc
        · exact fun hh => hc hh.1
        · exact fun hh => hc hh.2
      rw [pySplit2_cons_cons_ne c a b _ hab, ih h.2]

theorem pySplit2_pyJoin (c : Char) (parts : List Str) (hne : parts ≠ [])
    (h : ∀ p ∈ parts, ∀ x ∈ p, x ≠ c) :
    pySplit2 c (pyJoin [c, c] parts) = parts := by
  induction parts with
  | nil => exact absurd rfl hne
  | cons p parts ih =>
    cases parts with
    | nil =>
      exact pySplit2_noDouble c p (noDouble_of_no_char c p (h p (by simp)))
    | cons q parts' =>
      rw [pyJoin_cons_cons, List.append_assoc]
      have hcc : ([c, c] ++ pyJoin [c, c] (q :: parts')) =
          c :: c :: pyJoin [c, c] (q :: parts') := rfl
      rw [hcc, pySplit2_append c p _ (h p (by simp)),
        ih (by simp) (fun r hr x hx => h r (by simp [hr]) x hx)]

theorem pyJoin_ne_nil (sep : Str) (p : Str) (ps : List Str) (hp : p ≠ []) :
    pyJoin sep (p :: ps) ≠ [] := by
  cases ps with
  | nil => exact hp
  | cons q ps' =>
    rw [pyJoin_cons_cons]
    simp [hp]

theorem head?_pyJoin_cons (sep : Str) (p : Str) (ps : List Str) (hp : p ≠ []) :
    (pyJoin sep (p :: ps)).head? = p.head? := by
  cases ps with
  | nil => rfl
  | cons q ps' =>
    rw [pyJoin_cons_cons, List.append_assoc]
    cases p with
    | nil => exact absurd rfl hp
    | cons a p' => rfl

theorem mem_pyJoin (sep : Str) (parts : List Str) (x : Char)
    (hx : x ∈ pyJoin sep parts) : (∃ p ∈ parts, x ∈ p) ∨ x ∈ sep := by
  induction parts with
  | nil => simp [pyJoin] at hx
  | cons p ps ih =>
    cases ps with
    | nil => exact Or.inl ⟨p, by simp, hx⟩
    | cons q ps' =>
      rw [pyJoin_cons_cons] at hx
      simp only [List.mem_append] at hx
      rcases hx with (hx | hx) | hx
      · exact Or.inl ⟨p, by simp, hx⟩
      · exact Or.inr hx
      · rcases ih hx with ⟨r, hr, hxr⟩ | hsep
        · exact Or.inl ⟨r, by simp [hr], hxr⟩
        · exact Or.inr hsep

theorem noDouble_pyJoin_single (c : Char) (parts : List Str)
    (h : ∀ p ∈ parts, p ≠ [] ∧ ∀ x ∈ p, x ≠ c) :
    noDouble c (pyJoin [c] parts) = true := by
  induction parts with
  | nil => simp [pyJoin, noDouble]
  | cons p ps ih =>
    cases ps with
    | nil => exact noDouble_of_no_char c p (h p (by simp)).2
    | cons q ps' =>
      rw [pyJoin_cons_cons, List.append_assoc, List.singleton_append]
      have hq := h q (by simp)
      apply noDouble_sep_append c _ _ (h p (by simp)).2
        (ih (fun r hr => h r (by simp [hr])))
      rw [head?_pyJoin_cons _ _ _ hq.1]
      cases q with
      | nil => exact absurd rfl hq.1
      | cons a q' =>
        simp only [List.head?_cons, ne_eq, Option.some_inj]
        exact hq.2 a (by simp)

theorem noDouble_pyJoin_double (c d : Char) (hcd : d ≠ c) (parts : List Str)
    (h : ∀ p ∈ parts, noDouble c p = true) :
    noDouble c (pyJoin [d, d] parts) = true := by
  induction parts with
  | nil => simp [pyJoin, noDouble]
  | cons p ps ih =>
    cases ps with
    | nil => exact h p (by simp)
    | cons q ps' =>
      rw [pyJoin_cons_cons, List.append_assoc]
      have hdd : ([d, d] ++ pyJoin [d, d] (q :: ps')) =
          d :: d :: pyJoin [d, d] (q :: ps') := rfl
      rw [hdd]
      apply noDouble_append_cons c d _ _ hcd (h p (by simp))
      apply noDouble_cons_of_ne c d _ hcd
      apply noDouble_cons_of_ne c d _ hcd
      exact ih (fun r hr => h r (by simp [hr]))

/-! ## Helper lemmas: codec round trips -/

/-- A field value the encoding can carry faithfully: non-empty, inside the
modelled ASCII fragment, and free of the separator characters. -/
def cleanField (s : Str) : Prop :=
  s ≠ [] ∧ ∀ c ∈ s, c.toNat < 128 ∧ c ≠ '|' ∧ c ≠ ';'

instance (s : Str) : Decidable (cleanField s) := by unfold cleanField; infer_instance

/-- All six fields of a bet are clean. -/
def cleanBet (b : Bet) : Prop :=
  cleanField b.agency ∧ cleanField b.first_name ∧ cleanField b.last_name ∧
    cleanField b.document ∧ cleanField b.birthdate ∧ cleanField b.number

instance (b : Bet) : Decidable (cleanBet b) := by unfold cleanBet; infer_instance

theorem cleanField_no_pipe {s : Str} (h : cleanField s) : ∀ x ∈ s, x ≠ '|' :=
  fun x hx => (h.2 x hx).2.1

theorem cleanField_no_semi {s : Str} (h : cleanField s) : ∀ x ∈ s, x ≠ ';' :=
  fun x hx => (h.2 x hx).2.2

/-- The six fields of a bet, in serialization order. -/
def betFields (b : Bet) : List Str :=
  [b.agency, b.first_name, b.last_name, b.document, b.birthdate, b.number]

theorem betFields_clean {b : Bet} (h : cleanBet b) :
    ∀ p ∈ betFields b, cleanField p := by
  obtain ⟨h1, h2, h3, h4, h5, h6⟩ := h
  intro p hp
  simp only [betFields, List.mem_cons, List.not_mem_nil, or_false] at hp
  rcases hp with rfl | rfl | rfl | rfl | rfl | rfl <;> assumption

theorem deserialize_serialize_bet {b : Bet} (h : cleanBet b) :
    deserialize_bet (serialize_bet b) = some b := by
  have hsplit : pySplit1 '|' (pyJoin ['|'] (betFields b)) = betFields b :=
    pySplit1_pyJoin '|' (betFields b) (by simp [betFields])
      (fun p hp => cleanField_no_pipe (betFields_clean h p hp))
  show (match pySplit1 '|' (pyJoin ['|'] (betFields b)) with
    | [a, f, l, d, b, n] => some (⟨a, f, l, d, b, n⟩ : Bet)
    | _ => none) = some b
  rw [hsplit]
  rfl

theorem serialize_bet_ne_nil {b : Bet} (h : cleanBet b) : serialize_bet b ≠ [] :=
  pyJoin_ne_nil ['|'] b.agency _ h.1.1

theorem mem_serialize_bet {b : Bet} {x : Char} (hx : x ∈ serialize_bet b) :
    x = '|' ∨ ∃ p ∈ betFields b, x ∈ p := by
  rcases mem_pyJoin ['|'] (betFields b) x hx with ⟨p, hp, hxp⟩ | hsep
  · exact Or.inr ⟨p, hp, hxp⟩
  · simp only [List.mem_singleton] at hsep
    exact Or.inl hsep

theorem serialize_bet_no_semi {b : Bet} (h : cleanBet b) :
    ∀ x ∈ serialize_bet b, x ≠ ';' := by
  intro x hx
  rcases mem_serialize_bet hx with rfl | ⟨p, hp, hxp⟩
  · decide
  · exact cleanField_no_semi (betFields_clean h p hp) x hxp

theorem serialize_bet_ascii {b : Bet} (h : cleanBet b) : asciiStr (serialize_bet b) := by
  intro x hx
  rcases mem_serialize_bet hx with rfl | ⟨p, hp, hxp⟩
  · decide
  · exact ((betFields_clean h p hp).2 x hxp).1

theorem noDouble_serialize_bet {b : Bet} (h : cleanBet b) :
    noDouble '|' (serialize_bet b) = true :=
  noDouble_pyJoin_single '|' (betFields b)
    (fun p hp => ⟨(betFields_clean h p hp).1, cleanField_no_pipe (betFields_clean h p hp)⟩)

theorem mapM_deserialize_serialize (bets : List Bet) (h : ∀ b ∈ bets, cleanBet b) :
    (bets.map serialize_bet).mapM deserialize_bet = some bets := by
  induction bets with
  | nil => rfl
  | cons b bets ih =>
    rw [List.map_cons, List.mapM_cons, deserialize_serialize_bet (h b (by simp)),
      ih (fun r hr => h r (by simp [hr]))]
    rfl

theorem deserialize_serialize_batch_str {bt : Batch} (hA : cleanField bt.agency)
    (hB : ∀ b ∈ bt.bets, cleanBet b) :
    deserialize_batch_str (serialize_batch bt) = some bt := by
  obtain ⟨agency, bets⟩ := bt
  simp only at hA hB
  have hnd : noDouble '|' (pyJoin [';', ';'] (bets.map serialize_bet)) = true := by
    apply noDouble_pyJoin_double '|' ';' (by decide)
    intro p hp
    rw [List.mem_map] at hp
    obtain ⟨b, hb, rfl⟩ := hp
    exact noDouble_serialize_bet (hB b hb)
  have hsplit : pySplit2 '|' (serialize_batch ⟨agency, bets⟩) =
      [agency, pyJoin [';', ';'] (bets.map serialize_bet)] := by
    show pySplit2 '|' (agency ++ ['|', '|'] ++ pyJoin [';', ';'] (bets.map serialize_bet)) = _
    rw [List.append_assoc]
    have hshape : (['|', '|'] ++ pyJoin [';', ';'] (bets.map serialize_bet)) =
        '|' :: '|' :: pyJoin [';', ';'] (bets.map serialize_bet) := rfl
    rw [hshape, pySplit2_append '|' agency _ (cleanField_no_pipe hA),
      pySplit2_noDouble '|' _ hnd]
  have hsection : deserialize_bets_section (pyJoin [';', ';'] (bets.map serialize_bet)) =
      some bets := by
    cases bets with
    | nil => rfl
    | cons b0 bs =>
      have hbne : serialize_bet b0 ≠ [] := serialize_bet_ne_nil (hB b0 (by simp))
      have hJne : pyJoin [';', ';'] ((b0 :: bs).map serialize_bet) ≠ [] := by
        rw [List.map_cons]
        exact pyJoin_ne_nil [';', ';'] _ _ hbne
      have hsemi : ∀ p ∈ (b0 :: bs).map serialize_bet, ∀ x ∈ p, x ≠ ';' := by
        intro p hp
        rw [List.mem_map] at hp
        obtain ⟨b, hb, rfl⟩ := hp
        exact serialize_bet_no_semi (hB b hb)
      rw [deserialize_bets_section, if_neg hJne,
        pySplit2_pyJoin ';' _ (by simp) hsemi, mapM_deserialize_serialize _ hB]
  simp only [deserialize_batch_str, hsplit, hsection, Option.map_some']

theorem serialize_batch_ascii {bt : Batch} (hA : cleanField bt.agency)
    (hB : ∀ b ∈ bt.bets, cleanBet b) : asciiStr (serialize_batch bt) := by
  intro x hx
  simp only [serialize_batch, List.mem_append] at hx
  rcases hx with (hx | hx) | hx
  · exact (hA.2 x hx).1
  · simp only [List.mem_cons, List.not_mem_nil, or_false] at hx
    rcases hx with rfl | rfl <;> decide
  · rcases mem_pyJoin _ _ _ hx with ⟨p, hp, hxp⟩ | hsep
    · rw [List.mem_map] at hp
      obtain ⟨b, hb, rfl⟩ := hp
      exact serialize_bet_ascii (hB b hb) x hxp
    · simp only [List.mem_cons, List.not_mem_nil, or_false] at hsep
      rcases hsep with rfl | rfl <;> decide

theorem deserialize_serialize_batch {bt : Batch} (hA : cleanField bt.agency)
    (hB : ∀ b ∈ bt.bets, cleanBet b) :
    (utf8Encode (serialize_batch bt)).bind deserialize_batch = some bt := by
  rw [utf8Encode_eq_some (serialize_batch_ascii hA hB), Option.some_bind,
    deserialize_batch, utf8Decode_map_toNat (serialize_batch_ascii hA hB),
    Option.some_bind, deserialize_serialize_batch_str hA hB]

theorem deserialize_serialize_response (r : Response) :
    deserialize_response (serialize_response r) = some r := by
  obtain ⟨success, msg⟩ := r
  cases success
  · show deserialize_response ("false".data ++ ['|'] ++ msg) = some ⟨false, msg⟩
    rw [List.append_assoc, List.singleton_append, deserialize_response,
      pySplitOnce1_append '|' _ _ (by decide)]
    rfl
  · show deserialize_response ("true".data ++ ['|'] ++ msg) = some ⟨true, msg⟩
    rw [List.append_assoc, List.singleton_append, deserialize_response,
      pySplitOnce1_append '|' _ _ (by decide)]
    rfl

theorem deserialize_serialize_winners_response (w : WinnersResponse)
    (h : ∀ d ∈ w.winners, d ≠ [] ∧ ∀ x ∈ d, x ≠ '|') :
    deserialize_winners_response (serialize_winners_response w) = some w := by
  obtain ⟨ws⟩ := w
  cases ws with
  | nil => rfl
  | cons d ds =>
    have hne : pyJoin ['|'] (d :: ds) ≠ [] :=
      pyJoin_ne_nil ['|'] d ds (h d (by simp)).1
    rw [serialize_winners_response, deserialize_winners_response, if_neg hne,
      pySplit1_pyJoin '|' _ (by simp) (fun p hp x hx => (h p hp).2 x hx)]

theorem deserialize_serialize_finished (fn : FinishedNotification)
    (h : asciiStr fn.agency) :
    (utf8Encode (serialize_finished_notification fn)).bind
      deserialize_finished_notification = some fn := by
  rw [serialize_finished_notification, utf8Encode_eq_some h, Option.some_bind,
    deserialize_finished_notification, utf8Decode_map_toNat h]
  rfl

theorem deserialize_serialize_query (q : WinnersQuery) (h : asciiStr q.agency) :
    (utf8Encode (serialize_winners_query q)).bind deserialize_winners_query = some q := by
  rw [serialize_winners_query, utf8Encode_eq_some h, Option.some_bind,
    deserialize_winners_query, utf8Decode_map_toNat h]
  rfl

/-! ## Helper lemmas: whole frames and the server state -/

theorem contains_iff_mem_str (l : List Str) (a : Str) : l.contains a = true ↔ a ∈ l := by
  show List.elem a l = true ↔ a ∈ l
  exact List.elem_iff

theorem recvExact_4_toLE (len : Nat) (payload : ByteStr) :
    recvExact 4 (toLEBytes 4 len ++ payload) = some (toLEBytes 4 len, payload) := by
  have hlen4 : (toLEBytes 4 len).length = 4 := length_toLEBytes 4 len
  rw [recvExact_eq_some 4 _ (by rw [List.length_append, hlen4]; omega)]
  have ht : (toLEBytes 4 len ++ payload).take 4 = toLEBytes 4 len := by
    rw [← hlen4]
    exact List.take_left _ _
  have hd : (toLEBytes 4 len ++ payload).drop 4 = payload := by
    rw [← hlen4]
    exact List.drop_left _ _
  rw [ht, hd]

theorem fromLEBytes_single (t : Nat) : fromLEBytes [t] = t := by
  simp [fromLEBytes]

theorem receive_message_frame (t : Nat) (payload : ByteStr) (h : payload.length < 2 ^ 32) :
    receive_message (t :: toLEBytes 4 payload.length ++ payload) =
      if t = BATCH then (deserialize_batch payload).map (fun d => ⟨t, .batch d⟩)
      else if t = WINNERS_QUERY then
        (deserialize_winners_query payload).map (fun d => ⟨t, .query d⟩)
      else if t = FINISHED_NOTIFICATION then
        (deserialize_finished_notification payload).map (fun d => ⟨t, .finished d⟩)
      else none := by
  have h1 : recvExact 1 (t :: (toLEBytes 4 payload.length ++ payload)) =
      some ([t], toLEBytes 4 payload.length ++ payload) := by
    simp [recvExact]
  have h2 := recvExact_4_toLE payload.length payload
  have h5 : recvExact payload.length payload = some (payload, []) := by
    rw [recvExact_eq_some _ _ (le_refl _), List.take_length, List.drop_length]
  have hfl : fromLEBytes (toLEBytes 4 payload.length) = payload.length :=
    fromLEBytes_toLEBytes_4 _ h
  simp only [List.cons_append] at h1
  simp only [receive_message, List.cons_append, h1, h2, fromLEBytes_single, hfl, h5]

/-! ## Claim C1 -/

/-- C1: the lottery computation executes exactly once per process lifetime,
guarded by the lottery-completed flag. Each of the `n ≥ 1` handlers released
by the finished barrier runs the lock-protected latch section
(`lottery_latch_step`) once; the lock serializes them, so the process is the
`n`-fold iterate from the fresh server state. The ghost counter then shows
the lottery body ran exactly once, the flag ends true, and every caller that
observes the flag true leaves the state untouched (skips the computation). -/
theorem lottery_exactly_once (load_bets : List StoreBet) (has_won : StoreBet → Bool)
    (total n : Nat) (hn : 1 ≤ n) :
    ((lottery_latch_step load_bets has_won)^[n] (initial_state total)).lottery_runs = 1 ∧
    ((lottery_latch_step load_bets has_won)^[n] (initial_state total)).lottery_completed
      = true ∧
    (∀ s : ServerState, s.lottery_completed = true →
      lottery_latch_step load_bets has_won s = s) := by
  have hfix : ∀ s : ServerState, s.lottery_completed = true →
      lottery_latch_step load_bets has_won s = s := by
    intro s hs
    simp [lottery_latch_step, hs]
  have hiter : ∀ (k : Nat) (s : ServerState), s.lottery_completed = true →
      (lottery_latch_step load_bets has_won)^[k] s = s := by
    intro k
    induction k with
    | zero => intro s _; rfl
    | succ k ih =>
      intro s hs
      rw [Function.iterate_succ_apply, hfix s hs]
      exact ih s hs
  obtain ⟨m, rfl⟩ : ∃ m, n = m + 1 := ⟨n - 1, by omega⟩
  have h0 : (initial_state total).lottery_completed = false := rfl
  have h1 : (lottery_latch_step load_bets has_won (initial_state total)).lottery_completed
      = true := by
    simp [lottery_latch_step, h0, perform_lottery]
  have h2 : (lottery_latch_step load_bets has_won (initial_state total)).lottery_runs
      = 1 := by
    simp [lottery_latch_step, h0, perform_lottery, initial_state]
  rw [Function.iterate_succ_apply, hiter m _ h1]
  exact ⟨h2, h1, hfix⟩

/-- Witness for C1 at three handlers. -/
theorem lottery_exactly_once_witness :
    ((lottery_latch_step [] (fun _ => false))^[3] (initial_state 3)).lottery_runs = 1 :=
  (lottery_exactly_once [] (fun _ => false) 3 3 (by decide)).1

/-! ## Claim C2 -/

/-- C2 counterexample: with the lottery-completed flag already true (the
situation after barrier A) and no query pending, handling a WinnersQuery does
NOT append it to the pending-query list (the list stays empty) and DOES send a
WinnersResponse immediately - the opposite of the claim. -/
theorem winners_query_enqueue_counterexample :
    ¬((handle_winners_query { initial_state 1 with lottery_completed := true }
        ⟨['1']⟩).1.pending_winner_queries = [⟨['1']⟩] ∧
      (handle_winners_query { initial_state 1 with lottery_completed := true }
        ⟨['1']⟩).2 = []) ∧
    (handle_winners_query { initial_state 1 with lottery_completed := true }
      ⟨['1']⟩).1.pending_winner_queries = [] ∧
    (handle_winners_query { initial_state 1 with lottery_completed := true }
      ⟨['1']⟩).2 = [⟨WINNERS_RESPONSE, .winners ⟨[]⟩⟩] := by
  decide

/-- C2 amended: a WinnersQuery processed while the lottery-completed flag is
true is answered immediately with exactly one WinnersResponse (the agency's
winners) and is NOT enqueued; a query processed while the flag is false is
enqueued with nothing sent; the later broadcast sends exactly one response to
each pending query's client and clears the pending list. -/
theorem winners_query_completed_behavior (s : ServerState) (q : WinnersQuery) :
    (s.lottery_completed = true →
      handle_winners_query s q =
        ({ s with winner_queries_received := s.winner_queries_received + 1 },
         [⟨WINNERS_RESPONSE, .winners ⟨get_winners_for_agency s q.agency⟩⟩])) ∧
    (s.lottery_completed = false →
      handle_winners_query s q =
        ({ s with winner_queries_received := s.winner_queries_received + 1,
                  pending_winner_queries := s.pending_winner_queries ++ [q] }, [])) ∧
    (s.pending_winner_queries ≠ [] →
      (send_winners_to_all_clients s).1.pending_winner_queries = [] ∧
      (send_winners_to_all_clients s).2.length = s.pending_winner_queries.length ∧
      ∀ e ∈ (send_winners_to_all_clients s).2,
        e.1 ∈ s.pending_winner_queries ∧
        e.2 = ⟨WINNERS_RESPONSE, .winners ⟨get_winners_for_agency s e.1.agency⟩⟩) := by
  refine ⟨?_, ?_, ?_⟩
  · intro h
    simp [handle_winners_query, h]
    rfl
  · intro h
    simp [handle_winners_query, h]
  · intro h
    have hne : s.pending_winner_queries.isEmpty = false := by
      simpa [List.isEmpty_iff] using h
    refine ⟨?_, ?_, ?_⟩
    · simp [send_winners_to_all_clients, hne]
    · simp [send_winners_to_all_clients, hne]
    · intro e he
      simp only [send_winners_to_all_clients, hne, Bool.false_eq_true, if_false,
        List.mem_map] at he
      obtain ⟨p, hp, rfl⟩ := he
      exact ⟨hp, rfl⟩

/-- Witness for C2's amended statement: the immediate-answer branch at a
concrete completed state. -/
theorem winners_query_completed_behavior_witness :
    handle_winners_query { initial_state 2 with lottery_completed := true } ⟨['7']⟩ =
      ({ initial_state 2 with lottery_completed := true, winner_queries_received := 1 },
       [⟨WINNERS_RESPONSE, .winners ⟨[]⟩⟩]) :=
  (winners_query_completed_behavior
    { initial_state 2 with lottery_completed := true } ⟨['7']⟩).1 rfl

/-! ## Claim C3 -/

/-- C3 counterexample: a Batch frame whose payload `"abc"` has the wrong field
count (no double-pipe separator) makes `receive_message` return `none` - the
very same result as a closed connection (the empty stream) - and the handler's
reaction to it is the early-disconnect abort that sends nothing, not a failure
Response. -/
theorem decode_error_counterexample :
    receive_message (BATCH :: toLEBytes 4 3 ++ [97, 98, 99]) = none ∧
    receive_message (BATCH :: toLEBytes 4 3 ++ [97, 98, 99]) = receive_message [] ∧
    client_loop_reaction (receive_message (BATCH :: toLEBytes 4 3 ++ [97, 98, 99])) =
      (LoopOutcome.abort_disconnected, []) := by
  decide

/-- C3 amended: a payload with the wrong field count is NOT distinguished from
a connection error: `receive_message` collapses the decode failure to `none`,
exactly its closed-connection result, and the client loop reacts to it as to a
disconnect - it aborts the connection and sends no Response at all. -/
theorem decode_failure_treated_as_disconnect (payload : ByteStr)
    (hlen : payload.length < 2 ^ 32) (hbad : deserialize_batch payload = none) :
    receive_message (BATCH :: toLEBytes 4 payload.length ++ payload) = none ∧
    receive_message (BATCH :: toLEBytes 4 payload.length ++ payload) =
      receive_message [] ∧
    client_loop_reaction
        (receive_message (BATCH :: toLEBytes 4 payload.length ++ payload)) =
      (LoopOutcome.abort_disconnected, []) := by
  have hframe := receive_message_frame BATCH payload hlen
  rw [if_pos rfl, hbad] at hframe
  simp only [Option.map_none'] at hframe
  exact ⟨hframe, by rw [hframe]; rfl, by rw [hframe]; rfl⟩

/-- Witness for C3's amended statement at the payload `"abc"`. -/
theorem decode_failure_treated_as_disconnect_witness :
    receive_message (BATCH :: toLEBytes 4 3 ++ [97, 98, 99]) = none :=
  (decode_failure_treated_as_disconnect [97, 98, 99] (by decide) (by decide)).1

/-! ## Claim C5 -/

/-- C5: whenever the peer closes before a full frame is accumulated -
mid-header (fewer than the 1 type byte plus 4 length bytes) or mid-payload
(fewer than `length` payload bytes) - `receive_message` returns `none`, the
no-message result, not an error and not a partial message. -/
theorem short_read_yields_no_message :
    (∀ s : ByteStr, s.length < 5 → receive_message s = none) ∧
    (∀ (t len : Nat) (payload : ByteStr), len < 2 ^ 32 → payload.length < len →
      receive_message (t :: toLEBytes 4 len ++ payload) = none) := by
  constructor
  · intro s hs
    cases s with
    | nil => rfl
    | cons b s' =>
      have h4 : recvExact 4 s' = none := by
        rw [recvExact_eq_none_iff]
        simp only [List.length_cons] at hs
        omega
      simp [receive_message, recvExact, h4]
  · intro t len payload hlen hshort
    have h1 : recvExact 1 (t :: (toLEBytes 4 len ++ payload)) =
        some ([t], toLEBytes 4 len ++ payload) := by
      simp [recvExact]
    have h2 := recvExact_4_toLE len payload
    have h5 : recvExact len payload = none := by
      rw [recvExact_eq_none_iff]
      exact hshort
    have hfl : fromLEBytes (toLEBytes 4 len) = len := fromLEBytes_toLEBytes_4 _ hlen
    simp only [List.cons_append] at h1
    simp only [receive_message, List.cons_append, h1, h2, fromLEBytes_single, hfl, h5]

/-- Witness for C5: a frame claiming ten payload bytes of which the peer
delivers five before closing yields the no-message result, as does a stream
that ends inside the header. -/
theorem short_read_yields_no_message_witness :
    receive_message [7] = none ∧
    receive_message (1 :: toLEBytes 4 10 ++ [65, 66, 67, 68, 69]) = none :=
  ⟨short_read_yields_no_message.1 [7] (by decide),
   short_read_yields_no_message.2 1 10 [65, 66, 67, 68, 69] (by decide) (by decide)⟩

/-! ## Claim C4 -/

/-- C4 counterexample: for a Bet whose first name contains the separator
character, decoding the encoding does not give the bet back (the pipe inside
the field inflates the field count, so the decode fails). -/
theorem codec_roundtrip_counterexample :
    deserialize_bet (serialize_bet
        ⟨['1'], ['J', 'u', '|', 'a', 'n'], ['P'], ['3'], ['9'], ['7']⟩) ≠
      some ⟨['1'], ['J', 'u', '|', 'a', 'n'], ['P'], ['3'], ['9'], ['7']⟩ := by
  decide

/-- C4 amended: decode-of-encode is the identity for every message type
provided the string contents respect the delimiter-free discipline the wire
format requires: FinishedNotification and WinnersQuery round-trip for any
agency in the modelled ASCII fragment, Response round-trips unconditionally,
WinnersResponse round-trips when every document is non-empty and pipe-free,
and Bet and Batch round-trip when every field is non-empty, ASCII, and free
of the separator characters pipe and semicolon. -/
theorem codec_roundtrip_clean :
    (∀ fn : FinishedNotification, asciiStr fn.agency →
      (utf8Encode (serialize_finished_notification fn)).bind
        deserialize_finished_notification = some fn) ∧
    (∀ q : WinnersQuery, asciiStr q.agency →
      (utf8Encode (serialize_winners_query q)).bind deserialize_winners_query
        = some q) ∧
    (∀ r : Response, deserialize_response (serialize_response r) = some r) ∧
    (∀ w : WinnersResponse, (∀ d ∈ w.winners, d ≠ [] ∧ ∀ x ∈ d, x ≠ '|') →
      deserialize_winners_response (serialize_winners_response w) = some w) ∧
    (∀ b : Bet, cleanBet b → deserialize_bet (serialize_bet b) = some b) ∧
    (∀ bt : Batch, cleanField bt.agency → (∀ b ∈ bt.bets, cleanBet b) →
      (utf8Encode (serialize_batch bt)).bind deserialize_batch = some bt) :=
  ⟨deserialize_serialize_finished, deserialize_serialize_query,
   deserialize_serialize_response, deserialize_serialize_winners_response,
   fun _ h => deserialize_serialize_bet h,
   fun _ hA hB => deserialize_serialize_batch hA hB⟩

/-- Witness for C4's amended statement: a concrete clean bet and a concrete
clean one-bet batch round-trip. -/
theorem codec_roundtrip_clean_witness :
    deserialize_bet (serialize_bet ⟨['1'], ['J'], ['P'], ['3'], ['9'], ['7']⟩) =
      some ⟨['1'], ['J'], ['P'], ['3'], ['9'], ['7']⟩ ∧
    (utf8Encode (serialize_batch ⟨['2'], [⟨['2'], ['A'], ['B'], ['4'], ['9'], ['8']⟩]⟩)).bind
        deserialize_batch =
      some ⟨['2'], [⟨['2'], ['A'], ['B'], ['4'], ['9'], ['8']⟩]⟩ :=
  ⟨codec_roundtrip_clean.2.2.2.2.1 _ (by decide),
   codec_roundtrip_clean.2.2.2.2.2 _ (by decide) (by decide)⟩

/-! ## Claim C6 -/

/-- C6: every frame the encoder emits is exactly one type byte, four
little-endian length bytes whose value is the exact byte count of the
payload, then the payload and nothing after it (the frame length is exactly
five plus the payload length); and the type codes are 1 = Batch,
2 = Response, 3 = FinishedNotification, 4 = WinnersQuery,
5 = WinnersResponse, used with those meanings by both the encoder
(`send_message`) and the decoder (`receive_message`). -/
theorem frame_format_and_type_codes :
    (BATCH = 1 ∧ RESPONSE = 2 ∧ FINISHED_NOTIFICATION = 3 ∧ WINNERS_QUERY = 4 ∧
      WINNERS_RESPONSE = 5) ∧
    (∀ (m : Message) (frame : ByteStr), send_message m = some frame →
      ∃ payload : ByteStr,
        frame = m.type :: toLEBytes 4 payload.length ++ payload ∧
        fromLEBytes (toLEBytes 4 payload.length) = payload.length ∧
        (toLEBytes 4 payload.length).length = 4 ∧
        frame.length = 5 + payload.length) ∧
    (∀ (r : Response) (p : ByteStr), utf8Encode (serialize_response r) = some p →
      p.length < 2 ^ 32 →
      send_message ⟨RESPONSE, .response r⟩ = some (RESPONSE :: toLEBytes 4 p.length ++ p)) ∧
    (∀ (w : WinnersResponse) (p : ByteStr),
      utf8Encode (serialize_winners_response w) = some p → p.length < 2 ^ 32 →
      send_message ⟨WINNERS_RESPONSE, .winners w⟩ =
        some (WINNERS_RESPONSE :: toLEBytes 4 p.length ++ p)) ∧
    (∀ payload : ByteStr, payload.length < 2 ^ 32 →
      receive_message (BATCH :: toLEBytes 4 payload.length ++ payload) =
        (deserialize_batch payload).map (fun d => ⟨BATCH, .batch d⟩) ∧
      receive_message (FINISHED_NOTIFICATION :: toLEBytes 4 payload.length ++ payload) =
        (deserialize_finished_notification payload).map
          (fun d => ⟨FINISHED_NOTIFICATION, .finished d⟩) ∧
      receive_message (WINNERS_QUERY :: toLEBytes 4 payload.length ++ payload) =
        (deserialize_winners_query payload).map (fun d => ⟨WINNERS_QUERY, .query d⟩)) := by
  refine ⟨⟨rfl, rfl, rfl, rfl, rfl⟩, ?_, ?_, ?_, ?_⟩
  · intro m frame hsend
    rw [send_message] at hsend
    cases hp : encode_payload m with
    | none =>
      rw [hp] at hsend
      exact absurd hsend (by simp)
    | some payload =>
      rw [hp] at hsend
      have hsend2 : (if payload.length < 2 ^ 32 then
          some (m.type :: toLEBytes 4 payload.length ++ payload) else none) =
          some frame := hsend
      by_cases hb : payload.length < 2 ^ 32
      · rw [if_pos hb] at hsend2
        refine ⟨payload, (Option.some_inj.1 hsend2).symm,
          fromLEBytes_toLEBytes_4 _ hb, length_toLEBytes _ _, ?_⟩
        rw [← Option.some_inj.1 hsend2]
        simp [List.length_append, length_toLEBytes]
        omega
      · rw [if_neg hb] at hsend2
        exact absurd hsend2 (by simp)
  · intro r p henc hb
    rw [send_message, show encode_payload ⟨RESPONSE, .response r⟩ =
      utf8Encode (serialize_response r) from rfl, henc]
    show (if p.length < 2 ^ 32 then
      some ((⟨RESPONSE, .response r⟩ : Message).type :: toLEBytes 4 p.length ++ p)
      else none) = _
    rw [if_pos hb]
  · intro w p henc hb
    rw [send_message, show encode_payload ⟨WINNERS_RESPONSE, .winners w⟩ =
      utf8Encode (serialize_winners_response w) from rfl, henc]
    show (if p.length < 2 ^ 32 then
      some ((⟨WINNERS_RESPONSE, .winners w⟩ : Message).type :: toLEBytes 4 p.length ++ p)
      else none) = _
    rw [if_pos hb]
  · intro payload hb
    refine ⟨?_, ?_, ?_⟩ <;>
      rw [receive_message_frame _ _ hb] <;>
      norm_num [BATCH, FINISHED_NOTIFICATION, WINNERS_QUERY]

/-- Witness for C6: the decoder consumes a concrete one-byte
FinishedNotification frame with type code 3. -/
theorem frame_format_and_type_codes_witness :
    receive_message (FINISHED_NOTIFICATION :: toLEBytes 4 1 ++ [49]) =
      (deserialize_finished_notification [49]).map
        (fun d => ⟨FINISHED_NOTIFICATION, .finished d⟩) :=
  (frame_format_and_type_codes.2.2.2.2 [49] (by decide)).2.1

/-! ## Claim C7 -/

/-- C7: marking an agency finished is idempotent: a second
FinishedNotification for the same agency leaves the whole state (in
particular the finished set) unchanged and is logged as already finished,
while the first notification from the fresh server state is logged as newly
finished and leaves the set at size one even after the duplicate; both
notifications are acknowledged with a success Response. -/
theorem finished_mark_idempotent (s : ServerState) (a : Str) (total : Nat) :
    (handle_finished_notification (handle_finished_notification s ⟨a⟩).1 ⟨a⟩).1 =
      (handle_finished_notification s ⟨a⟩).1 ∧
    (handle_finished_notification (handle_finished_notification s ⟨a⟩).1 ⟨a⟩).2.1 =
      FinishedLog.already_finished ∧
    (handle_finished_notification (initial_state total) ⟨a⟩).2.1 =
      FinishedLog.newly_finished ∧
    (handle_finished_notification
        (handle_finished_notification (initial_state total) ⟨a⟩).1
        ⟨a⟩).1.finished_agencies.length = 1 ∧
    (∃ msg, (handle_finished_notification s ⟨a⟩).2.2 =
      ⟨RESPONSE, .response ⟨true, msg⟩⟩) ∧
    (∃ msg, (handle_finished_notification (handle_finished_notification s ⟨a⟩).1 ⟨a⟩).2.2 =
      ⟨RESPONSE, .response ⟨true, msg⟩⟩) := by
  have hmem : ∀ s' : ServerState,
      ((handle_finished_notification s' ⟨a⟩).1).finished_agencies.contains a = true := by
    intro s'
    rw [contains_iff_mem_str]
    by_cases h : a ∈ s'.finished_agencies
    · simp [handle_finished_notification, (contains_iff_mem_str _ _).2 h, h]
    · simp [handle_finished_notification, h]
  have hdup : ∀ s' : ServerState, s'.finished_agencies.contains a = true →
      handle_finished_notification s' ⟨a⟩ =
        (s', FinishedLog.already_finished,
         ⟨RESPONSE, .response ⟨true,
           "Agency ".data ++ a ++ " finished notification received".data⟩⟩) := by
    intro s' h
    have h' : a ∈ s'.finished_agencies := (contains_iff_mem_str _ _).1 h
    simp [handle_finished_notification, h, h']
  have hfresh : handle_finished_notification (initial_state total) ⟨a⟩ =
      ({ initial_state total with finished_agencies := [a] },
       FinishedLog.newly_finished,
       ⟨RESPONSE, .response ⟨true,
         "Agency ".data ++ a ++ " finished notification received".data⟩⟩) := by
    simp [handle_finished_notification, initial_state]
  refine ⟨?_, ?_, ?_, ?_, ?_, ?_⟩
  · rw [hdup _ (hmem s)]
  · rw [hdup _ (hmem s)]
  · rw [hfresh]
  · rw [hdup _ (hmem (initial_state total)), hfresh]
    simp
  · exact ⟨_, rfl⟩
  · exact ⟨_, rfl⟩

/-! ## Claim C8 -/

/-- C8: the lottery computation performs a full reload of the persisted bets
through the external `load_bets`, replaces the in-memory winners list with
exactly the reloaded bets satisfying the external `has_won` (whatever the
previous list was), and touches nothing else of the coordination state. -/
theorem perform_lottery_reloads_and_filters (load_bets : List StoreBet)
    (has_won : StoreBet → Bool) (s : ServerState) :
    (perform_lottery load_bets has_won s).all_bets = load_bets.filter has_won ∧
    (∀ b : StoreBet, b ∈ (perform_lottery load_bets has_won s).all_bets ↔
      b ∈ load_bets ∧ has_won b = true) ∧
    (perform_lottery load_bets has_won s).finished_agencies = s.finished_agencies ∧
    (perform_lottery load_bets has_won s).pending_winner_queries =
      s.pending_winner_queries ∧
    (perform_lottery load_bets has_won s).lottery_completed = s.lottery_completed ∧
    (perform_lottery load_bets has_won s).winners_sent = s.winners_sent := by
  refine ⟨rfl, ?_, rfl, rfl, rfl, rfl⟩
  intro b
  simp [perform_lottery, List.mem_filter]

/-! ## Claim C9 -/

/-- C9: the winners-for-agency lookup only ever returns documents of retained
winners whose integer agency identifier is the parse of the argument (never a
bet of a different agency), and it returns the empty list - not an error -
when no bets were ever loaded or when no retained bet matches the agency. -/
theorem winners_for_agency_scoped (s : ServerState) (a : Str) :
    (∀ d ∈ get_winners_for_agency s a, ∃ b : StoreBet,
      b ∈ s.all_bets ∧ b.document = d ∧ parsePyInt a = some b.agency) ∧
    (s.all_bets = [] → get_winners_for_agency s a = []) ∧
    ((∀ b ∈ s.all_bets, parsePyInt a ≠ some b.agency) →
      get_winners_for_agency s a = []) := by
  refine ⟨?_, ?_, ?_⟩
  · intro d hd
    rw [get_winners_for_agency] at hd
    by_cases hempty : s.all_bets.isEmpty
    · rw [if_pos hempty] at hd
      exact absurd hd (by simp)
    · rw [if_neg hempty] at hd
      cases hp : parsePyInt a with
      | none =>
        rw [hp] at hd
        exact absurd hd (by simp)
      | some n =>
        rw [hp] at hd
        simp only [List.mem_map, List.mem_filter] at hd
        obtain ⟨b, ⟨hb, hbag⟩, rfl⟩ := hd
        simp only [decide_eq_true_eq] at hbag
        exact ⟨b, hb, rfl, by rw [hbag]⟩
  · intro h
    rw [get_winners_for_agency, if_pos (by simp [h])]
  · intro h
    rw [get_winners_for_agency]
    by_cases hempty : s.all_bets.isEmpty
    · rw [if_pos hempty]
    · rw [if_neg hempty]
      cases hp : parsePyInt a with
      | none => rfl
      | some n =>
        have hfilter : s.all_bets.filter (fun bet => bet.agency = n) = [] := by
          rw [List.filter_eq_nil_iff]
          intro b hb
          simp only [decide_eq_true_eq]
          intro hbn
          refine h b hb ?_
          rw [hbn]
          exact hp
        show (s.all_bets.filter (fun bet => bet.agency = n)).map
          (fun bet => bet.document) = []
        rw [hfilter]
        rfl

/-- Witness for C9: lookups against the empty winners list and against a list
whose only bet belongs to another agency both give the empty list. -/
theorem winners_for_agency_scoped_witness :
    get_winners_for_agency (initial_state 1) ['1'] = [] ∧
    get_winners_for_agency
      { initial_state 1 with all_bets := [⟨2, [], [], ['3'], [], 5⟩] } ['1'] = [] :=
  ⟨(winners_for_agency_scoped (initial_state 1) ['1']).2.1 rfl,
   (winners_for_agency_scoped
      { initial_state 1 with all_bets := [⟨2, [], [], ['3'], [], 5⟩] } ['1']).2.2
     (by decide)⟩

/-! ## Claim C10 -/

/-- C10: `send_message` returns the failure outcome, with nothing written to
the socket, for every message whose type code is not RESPONSE or
WINNERS_RESPONSE and for every message whose payload object does not match
its type code; conversely whenever it does write a frame the message was a
Response under code 2 or a WinnersResponse under code 5 - the server-side
encoder can only ever transmit those two frame kinds. -/
theorem send_only_response_frames (m : Message) :
    ((m.type ≠ RESPONSE ∧ m.type ≠ WINNERS_RESPONSE) → send_message m = none) ∧
    (m.type = RESPONSE → (∀ r, m.data ≠ .response r) → send_message m = none) ∧
    (m.type = WINNERS_RESPONSE → (∀ w, m.data ≠ .winners w) → send_message m = none) ∧
    (∀ frame : ByteStr, send_message m = some frame →
      (m.type = RESPONSE ∧ ∃ r, m.data = .response r) ∨
      (m.type = WINNERS_RESPONSE ∧ ∃ w, m.data = .winners w)) := by
  refine ⟨?_, ?_, ?_, ?_⟩
  · intro h
    rw [send_message, show encode_payload m = none from by
      simp [encode_payload, h.1, h.2]]
  · intro ht hr
    rw [send_message, show encode_payload m = none from ?_]
    rw [encode_payload, if_pos ht]
    cases hd : m.data with
    | response r => exact absurd hd (hr r)
    | _ => rfl
  · intro ht hw
    rw [send_message, show encode_payload m = none from ?_]
    have hne : m.type ≠ RESPONSE := by rw [ht]; decide
    rw [encode_payload, if_neg hne, if_pos ht]
    cases hd : m.data with
    | winners w => exact absurd hd (hw w)
    | _ => rfl
  · intro frame hsend
    rw [send_message] at hsend
    cases hp : encode_payload m with
    | none =>
      rw [hp] at hsend
      exact absurd hsend (by simp)
    | some payload =>
      rw [encode_payload] at hp
      by_cases h2 : m.type = RESPONSE
      · rw [if_pos h2] at hp
        cases hd : m.data with
        | response r => exact Or.inl ⟨h2, r, rfl⟩
        | batch b => rw [hd] at hp; exact absurd hp (by simp)
        | finished f => rw [hd] at hp; exact absurd hp (by simp)
        | query q => rw [hd] at hp; exact absurd hp (by simp)
        | winners w => rw [hd] at hp; exact absurd hp (by simp)
      · rw [if_neg h2] at hp
        by_cases h5 : m.type = WINNERS_RESPONSE
        · rw [if_pos h5] at hp
          cases hd : m.data with
          | winners w => exact Or.inr ⟨h5, w, rfl⟩
          | batch b => rw [hd] at hp; exact absurd hp (by simp)
          | finished f => rw [hd] at hp; exact absurd hp (by simp)
          | query q => rw [hd] at hp; exact absurd hp (by simp)
          | response r => rw [hd] at hp; exact absurd hp (by simp)
        · rw [if_neg h5] at hp
          exact absurd hp (by simp)

/-- Witness for C10: a Batch message is rejected outright, and a RESPONSE-typed
message carrying a WinnersResponse object is rejected too. -/
theorem send_only_response_frames_witness :
    send_message ⟨BATCH, .batch ⟨['1'], []⟩⟩ = none ∧
    send_message ⟨RESPONSE, .winners ⟨[]⟩⟩ = none :=
  ⟨(send_only_response_frames ⟨BATCH, .batch ⟨['1'], []⟩⟩).1 (by decide),
   (send_only_response_frames ⟨RESPONSE, .winners ⟨[]⟩⟩).2.1 rfl
     (fun r h => by simp at h)⟩

end Lottery
